import Mathlib

/-!
# Verification of the `copy-image` parallel copy engine

A shallow embedding, in Lean 4, of the core of the `copy-image` repository:

* `internal/config/config.go` — the `Config` structure with its extension
  filter (`HasExtensionFilter`, `IsExtensionAllowed`);
* `internal/copier/copier.go` (the context-aware version) — file enumeration
  (`GetFiles`), the single-file copy operation (`CopyFile`), the retry
  wrapper (`CopyFileWithRetry`), and the two worker-pool schedulers
  (`CopyFilesParallel` and `CopyFilesParallelWithEvents`).

Modelling conventions:

* The filesystem is a value of type `FS`: an association list of files
  (path ↦ content) together with oracles describing which I/O primitives
  fail (read-locked paths, directory-creation failure, per-path create /
  copy / sync failures).  Each I/O step of the Go code consults the
  corresponding oracle, mirroring the branch structure of the source.
* A Go `context.Context` is modelled as a `Bool` (`true` = already
  cancelled).  The claims under verification only involve contexts that are
  either never cancelled or cancelled before the call, so a static flag is
  a faithful model of `ctx.Err()` / `ctx.Done()`.
* `time.Sleep` is not executed; instead the retry wrapper records the
  requested backoff durations (in milliseconds) in a trace, so that
  theorems can speak about the sleeps the code would perform.
* Goroutine scheduling: the worker pool runs one logical task per file and
  folds every completed task's outcome into counters whose updates commute
  (they are atomic adds in the source).  The schedulers below process the
  file list sequentially in its given order; quantifying a theorem over all
  input lists covers every completion order.  The finer interleaving of the
  progress counter increment and the progress callback (which are two
  separate, unsynchronised steps in the source) is modelled separately by
  `progStep` / `runProg`.
* `MaxRetries` and `Workers` are natural numbers: the spec's data model
  declares "max retries (int ≥ 0)" and `Config.Validate` clamps both fields
  into their non-negative ranges before the copier sees them.
* `filepath.Base` and `filepath.Join` are modelled for the slash-separated,
  already-clean paths the engine manipulates (a destination directory
  joined with a base name); the `Clean` normalisation performed by Go on
  exotic inputs is out of scope.
* `strings.ToLower` is modelled on ASCII letters, which covers every
  extension string occurring in the repository; the Unicode case table
  beyond ASCII is irrelevant to the claims.
-/

namespace CopyImage

/-- ASCII-lowercase one character, as Go's `strings.ToLower` does on the
ASCII range: `'A'..'Z'` (codepoints 65–90) map to `'a'..'z'` (+32); every
other character is unchanged. -/
def lowerChar (c : Char) : Char :=
  if 65 ≤ c.toNat ∧ c.toNat ≤ 90 then Char.ofNat (c.toNat + 32) else c

/-- Is `c` an ASCII uppercase letter? -/
def isUpperAscii (c : Char) : Bool :=
  decide (65 ≤ c.toNat ∧ c.toNat ≤ 90)

/-- `strings.ToLower` (ASCII fragment): lowercase every character. -/
def goToLower (s : String) : String :=
  ⟨s.data.map lowerChar⟩

/-- The suffix of a character list starting at its last `'.'`, if any.
Helper for `extOf`. -/
def extSuffix : List Char → Option (List Char)
  | [] => none
  | c :: cs =>
    match extSuffix cs with
    | some s => some s
    | none => if c = '.' then some (c :: cs) else none

/-- Go's `filepath.Ext` on a bare file name (no separators): the suffix
beginning at the final dot, including the dot; `""` when there is no dot. -/
def extOf (name : String) : String :=
  match extSuffix name.data with
  | some s => ⟨s⟩
  | none => ""

/-- The last slash-separated component of a character list.
Helper for `baseName`. -/
def lastComp (cs : List Char) : List Char :=
  cs.foldl (fun acc c => if c = '/' then [] else acc ++ [c]) []

/-- Go's `filepath.Base` for the clean, non-empty paths the engine uses:
the last slash-separated component. -/
def baseName (p : String) : String :=
  ⟨lastComp p.data⟩

/-- Go's `filepath.Join dir name` for a clean `dir` and a bare `name`. -/
def joinPath (dir name : String) : String :=
  dir ++ "/" ++ name

/-- `config.Config` from `internal/config/config.go`.  `Workers` and
`MaxRetries` are naturals: the spec declares them non-negative and
`Config.Validate` clamps them upstream.  The YAML loading fields and
`Source`/`Destination` validation are out of scope. -/
structure Config where
  Source : String
  Destination : String
  Workers : Nat
  Overwrite : Bool
  Extensions : List String
  MaxRetries : Nat
  DryRun : Bool
deriving Repr, DecidableEq

/-- `Config.HasExtensionFilter`: the filter is enabled iff the extension
list is non-empty (`len(c.Extensions) > 0`). -/
def Config.HasExtensionFilter (c : Config) : Bool :=
  decide (0 < c.Extensions.length)

/-- `Config.IsExtensionAllowed`: with no filter every extension is allowed;
otherwise the argument must be *exactly equal* to one of the entries (the
Go loop `for _, allowed := range c.Extensions { if allowed == ext ... }`).
Note that the entries are not normalised here. -/
def Config.IsExtensionAllowed (c : Config) (ext : String) : Bool :=
  if !c.HasExtensionFilter then true
  else c.Extensions.contains ext

/-- One entry of `os.ReadDir`: a name and whether it is a directory. -/
structure DirEntry where
  name : String
  isDir : Bool
deriving Repr, DecidableEq

/-- The loop body of `Copier.GetFiles`: skip directories, lowercase each
file's extension, skip files rejected by the filter, and join the kept
names onto the source directory. -/
def getFilesLoop (c : Config) : List DirEntry → List String
  | [] => []
  | e :: rest =>
    if e.isDir then getFilesLoop c rest
    else
      let ext := goToLower (extOf e.name)
      if c.HasExtensionFilter && !c.IsExtensionAllowed ext then
        getFilesLoop c rest
      else
        joinPath c.Source e.name :: getFilesLoop c rest

/-- `Copier.GetFiles`: errors when the source directory does not exist,
otherwise returns the filtered listing.  `sourceDirExists` stands for
`utils.DirExists(c.config.Source)` and `entries` for the result of
`os.ReadDir`. -/
def GetFiles (c : Config) (sourceDirExists : Bool) (entries : List DirEntry) :
    Except String (List String) :=
  if !sourceDirExists then
    .error ("source directory does not exist: " ++ c.Source)
  else
    .ok (getFilesLoop c entries)

/-- File selection as worded by the spec: a regular file is selected iff
the filter set is empty or the lowercase form of its extension is in the
filter; directories are never selected.  Used to compare against
`GetFiles` (which is translated from the source). -/
def specSelect (c : Config) (entries : List DirEntry) : List String :=
  (entries.filter fun e =>
      !e.isDir &&
        (c.Extensions.isEmpty || c.Extensions.contains (goToLower (extOf e.name)))).map
    (fun e => joinPath c.Source e.name)

/-- The filesystem, together with the environment oracles deciding which
I/O primitives fail.  `files` is an association list path ↦ content (the
most recent write shadows older entries).  `lockedPaths` are paths whose
read-only open fails even though the file exists (permission / in-use
lock); a non-existent path also fails to open, see `IsFileLocked`.
`mkdirFails` models `utils.EnsureDir` failing; `createFails`, `copyFails`
and `syncFails` list destination paths at which `os.Create`, `io.Copy`
and `File.Sync` fail. -/
structure FS where
  files : List (String × String)
  lockedPaths : List String
  mkdirFails : Bool
  createFails : List String
  copyFails : List String
  syncFails : List String
deriving Repr, DecidableEq

/-- `utils.FileExists`. -/
def FS.fileExists (fs : FS) (p : String) : Bool :=
  (fs.files.lookup p).isSome

/-- Content of a file (defaulting to `""`); used by the streaming copy. -/
def FS.readFile (fs : FS) (p : String) : String :=
  (fs.files.lookup p).getD ""

/-- Create/truncate-then-write a file. -/
def FS.write (fs : FS) (p content : String) : FS :=
  { fs with files := (p, content) :: fs.files }

/-- `utils.IsFileLocked`: try to open the file read-only; report locked
when that fails for any reason — permission, in-use lock, or
non-existence all map to the same boolean, by design. -/
def IsFileLocked (fs : FS) (p : String) : Bool :=
  !fs.fileExists p || fs.lockedPaths.contains p

/-- The failure modes of the single-file copy operation, one per error
return of `Copier.CopyFile`. -/
inductive CopyErr where
  | ctxCanceled
  | locked
  | mkdirFailed
  | openFailed
  | createFailed
  | copyFailed
  | syncFailed
deriving Repr, DecidableEq

/-- The error messages attached by `Copier.CopyFile` (wrapping elided). -/
def errMessage : CopyErr → String
  | .ctxCanceled => "context canceled"
  | .locked => "file is locked by another process"
  | .mkdirFailed => "failed to create destination directory"
  | .openFailed => "failed to open source file"
  | .createFailed => "failed to create destination file"
  | .copyFailed => "failed to copy file content"
  | .syncFailed => "failed to sync file"

/-- How Go's `fmt` renders an optional error (`%v` prints `<nil>` for a
nil error). -/
def errorText : Option CopyErr → String
  | some e => errMessage e
  | none => "<nil>"

/-- `Copier.CopyFile` (context-aware version): cancellation check at
entry; destination path = destination directory + base name; trivial
success when the destination exists and `overwrite` is false; locked-file
probe; ensure destination directory; open source (in this deterministic
model the second open succeeds exactly when the probe did, so the probe
branch already covers `openFailed` for a locked source — the oracle
`openFails` is folded into `lockedPaths`); create/truncate destination;
stream the bytes; sync.  Returns the error (if any) and the filesystem
after the performed writes — a failed stream copy leaves the truncated
destination in place, exactly as the source does (no rollback). -/
def CopyFile (c : Config) (ctx : Bool) (sourcePath : String)
    (overwrite : Bool) (fs : FS) : Option CopyErr × FS :=
  if ctx then (some .ctxCanceled, fs)
  else
    let fileName := baseName sourcePath
    let destPath := joinPath c.Destination fileName
    if fs.fileExists destPath && !overwrite then (none, fs)
    else if IsFileLocked fs sourcePath then (some .locked, fs)
    else if fs.mkdirFails then (some .mkdirFailed, fs)
    else if fs.createFails.contains destPath then (some .createFailed, fs)
    else
      let fs1 := fs.write destPath ""
      if fs.copyFails.contains destPath then (some .copyFailed, fs1)
      else
        let fs2 := fs1.write destPath (fs.readFile sourcePath)
        if fs.syncFails.contains destPath then (some .syncFailed, fs2)
        else (none, fs2)

/-- `copier.CopyResult`: name, success flag, skipped flag, optional
error. -/
structure CopyResult where
  FileName : String
  Success : Bool
  Skipped : Bool
  Error : Option CopyErr
deriving Repr, DecidableEq

/-- The observable trace of one `CopyFileWithRetry` call: the returned
`CopyResult`, how many times `CopyFile` was invoked, the backoff sleeps
requested between attempts (in milliseconds, in order), and the final
filesystem. -/
structure RetryOut where
  result : CopyResult
  attempts : Nat
  sleeps : List Nat
  fs : FS
deriving Repr, DecidableEq

/-- The retry loop of `Copier.CopyFileWithRetry`
(`for attempt := 0; attempt <= maxRetries; attempt++`).  `left` is the
number of loop iterations still permitted (initially `MaxRetries + 1`)
and `attempt` the 0-based index of the current iteration, so
`attempt < MaxRetries` in the source corresponds to `left > 1` here.
Each iteration checks the context, invokes `CopyFile`, returns on
success, and otherwise — when further attempts remain — waits
`(attempt+1) * 100ms` in a context-cancellable select before retrying.
The `left = 0` base case corresponds to the loop condition failing and is
unreachable from the initial `left = MaxRetries + 1 ≥ 1`. -/
def retryLoop (c : Config) (ctx : Bool) (sourcePath fileName : String) :
    Nat → Nat → FS → Option CopyErr → RetryOut
  | 0, _attempt, fs, lastErr => ⟨⟨fileName, false, false, lastErr⟩, 0, [], fs⟩
  | left + 1, attempt, fs, _lastErr =>
    if ctx then ⟨⟨fileName, false, false, some .ctxCanceled⟩, 0, [], fs⟩
    else
      match CopyFile c ctx sourcePath c.Overwrite fs with
      | (none, fs1) => ⟨⟨fileName, true, false, none⟩, 1, [], fs1⟩
      | (some e, fs1) =>
        match left with
        | 0 => ⟨⟨fileName, false, false, some e⟩, 1, [], fs1⟩
        | l + 1 =>
          -- the select between ctx.Done() and time.After; with a static
          -- context the Done branch can only fire when ctx is cancelled,
          -- which the top-of-iteration check has already intercepted
          if ctx then ⟨⟨fileName, false, false, some .ctxCanceled⟩, 1, [], fs1⟩
          else
            let rest := retryLoop c ctx sourcePath fileName (l + 1) (attempt + 1) fs1 (some e)
            ⟨rest.result, rest.attempts + 1, (attempt + 1) * 100 :: rest.sleeps, rest.fs⟩

/-- `Copier.CopyFileWithRetry`: skip check first (destination exists and
overwrite disabled ⇒ skipped, no attempt, no sleep, filesystem
untouched), otherwise run the retry loop for up to `MaxRetries + 1`
attempts. -/
def CopyFileWithRetry (c : Config) (ctx : Bool) (sourcePath : String) (fs : FS) :
    RetryOut :=
  let fileName := baseName sourcePath
  let destPath := joinPath c.Destination fileName
  if fs.fileExists destPath && !c.Overwrite then
    ⟨⟨fileName, false, true, none⟩, 0, [], fs⟩
  else
    retryLoop c ctx sourcePath fileName (c.MaxRetries + 1) 0 fs none

/-- `copier.CopySummary` (the wall-clock `Duration` field is not
modelled; no claim concerns it). -/
structure CopySummary where
  TotalFiles : Nat
  Successful : Nat
  Failed : Nat
  Skipped : Nat
  FailedFiles : List String
deriving Repr, DecidableEq

/-- The shared state of one blocking-mode batch: the three outcome
counters (atomic adds in the source, so their updates commute across
workers), the mutex-guarded failed-files list, and the filesystem. -/
structure SchedState where
  successful : Nat
  failed : Nat
  skipped : Nat
  failedFiles : List String
  fs : FS
deriving Repr, DecidableEq

/-- The worker body of `Copier.CopyFilesParallel` for one file: dry-run
unconditionally counts the file successful (no I/O at all); otherwise the
outcome of `CopyFileWithRetry` (with `context.Background()`, i.e. never
cancelled) increments exactly one counter, appending
`"name: error"` on failure. -/
def runTaskCLI (c : Config) (st : SchedState) (f : String) : SchedState :=
  if c.DryRun then
    { st with successful := st.successful + 1 }
  else
    let out := CopyFileWithRetry c false f st.fs
    if out.result.Success then
      { st with successful := st.successful + 1, fs := out.fs }
    else if out.result.Skipped then
      { st with skipped := st.skipped + 1, fs := out.fs }
    else
      { st with failed := st.failed + 1, fs := out.fs,
                failedFiles := st.failedFiles ++
                  [out.result.FileName ++ ": " ++ errorText out.result.Error] }

/-- `Copier.CopyFilesParallel` (blocking/console mode): one task per
file, every task runs to completion (no cancellation context exists in
this mode), and the summary is assembled after the join.  The list is
processed in completion order; since the counter updates commute,
quantifying over all input lists covers every interleaving. -/
def CopyFilesParallel (c : Config) (files : List String) (fs : FS) :
    CopySummary × FS :=
  let st := files.foldl (runTaskCLI c) ⟨0, 0, 0, [], fs⟩
  (⟨files.length, st.successful, st.failed, st.skipped, st.failedFiles⟩, st.fs)

/-- One `(current, total, fileName, status)` tuple delivered to the
progress callback. -/
structure ProgressEvent where
  current : Nat
  total : Nat
  fileName : String
  status : String
deriving Repr, DecidableEq

/-- The shared state of one event-mode batch: the counters of
`SchedState` plus the atomic `processed` counter and the sequence of
callback invocations. -/
structure EvState where
  successful : Nat
  failed : Nat
  skipped : Nat
  processed : Nat
  failedFiles : List String
  events : List ProgressEvent
  fs : FS
deriving Repr, DecidableEq

/-- The tail of a completed task:
`current := int(atomic.AddInt32(&processed, 1)); onProgress(current, total, fileName, status)`. -/
def emitEv (total : Nat) (fileName status : String) (st : EvState) : EvState :=
  { st with processed := st.processed + 1,
            events := st.events ++ [⟨st.processed + 1, total, fileName, status⟩] }

/-- One dispatch-loop iteration plus worker body of
`Copier.CopyFilesParallelWithEvents` for one file.

The source's top-of-loop cancellation check
(`select { case <-ctx.Done(): break; default: }`) is a no-op: in Go,
`break` inside a `select` terminates the *select*, not the enclosing
`for` loop, so the loop spawns a goroutine for every file regardless of
cancellation.  It is therefore (faithfully) absent from this model.

The spawned goroutine then selects between acquiring a semaphore slot and
`ctx.Done()`.  With a live context only the semaphore case can fire, so
the task always runs; with an already-cancelled context both cases can be
ready and Go picks one pseudo-randomly — the oracle `adm` decides that
choice.  A task that loses the slot returns without touching any counter
(dropped, uncounted).  An admitted task runs the same body as the CLI
mode and then atomically increments `processed`, delivering
`(current, total, name, status)` to the callback. -/
def runTaskEvents (c : Config) (ctx adm : Bool) (total : Nat)
    (st : EvState) (f : String) : EvState :=
  if ctx && !adm then st
  else
    let fileName := baseName f
    if c.DryRun then
      emitEv total fileName "success" { st with successful := st.successful + 1 }
    else
      let out := CopyFileWithRetry c ctx f st.fs
      if out.result.Success then
        emitEv total fileName "success"
          { st with successful := st.successful + 1, fs := out.fs }
      else if out.result.Skipped then
        emitEv total fileName "skipped"
          { st with skipped := st.skipped + 1, fs := out.fs }
      else
        emitEv total fileName "failed"
          { st with
            failed := st.failed + 1
            fs := out.fs
            failedFiles := st.failedFiles ++
              [out.result.FileName ++ ": " ++ errorText out.result.Error] }

/-- The dispatch loop of `CopyFilesParallelWithEvents`: one task per
file; `i` is the position of the file in the list, consulted by the
`adm` oracle. -/
def runEvents (c : Config) (ctx : Bool) (adm : Nat → Bool) (total : Nat) :
    List String → Nat → EvState → EvState
  | [], _, st => st
  | f :: rest, i, st =>
    runEvents c ctx adm total rest (i + 1) (runTaskEvents c ctx (adm i) total st f)

/-- `Copier.CopyFilesParallelWithEvents`: callback-progress mode.
Returns the summary, the final filesystem, and the sequence of progress
events (the source's `onProgress` is assumed non-nil).  Tasks are
processed in completion order (see `runTaskEvents` for the treatment of
the two cancellation checks). -/
def CopyFilesParallelWithEvents (c : Config) (ctx : Bool) (adm : Nat → Bool)
    (files : List String) (fs : FS) : CopySummary × FS × List ProgressEvent :=
  let st := runEvents c ctx adm files.length files 0 ⟨0, 0, 0, 0, [], [], fs⟩
  (⟨files.length, st.successful, st.failed, st.skipped, st.failedFiles⟩, st.fs, st.events)

/-! ## Fine-grained model of progress delivery

In the source, a completing task executes two separate steps with no
synchronisation between them:

```
current := int(atomic.AddInt32(&processed, 1))   -- step 1 (atomic)
onProgress(current, total, fileName, status)     -- step 2
```

Other goroutines may run between a task's step 1 and step 2, so the order
in which values reach the callback is not the order in which they were
drawn from the counter.  `runProg` executes an explicit interleaving of
these per-task steps. -/

/-- The phase of one task's progress-reporting tail: not yet incremented,
holding its drawn `current` value, or delivered. -/
inductive TaskPh where
  | idle
  | ready (cur : Nat)
  | done
deriving Repr, DecidableEq

/-- State of the progress-delivery machine: the shared atomic counter,
each task's phase, and the values delivered to the callback in
observation order. -/
structure ProgSt where
  processed : Nat
  tasks : Nat → TaskPh
  delivered : List Nat

/-- One scheduler step giving task `i` its next move: an idle task
atomically increments the counter and records the drawn value; a ready
task invokes the callback, appending its value to the observation
sequence; a finished task does nothing. -/
def progStep (st : ProgSt) (i : Nat) : ProgSt :=
  match st.tasks i with
  | .idle =>
    { processed := st.processed + 1,
      tasks := fun j => if j = i then .ready (st.processed + 1) else st.tasks j,
      delivered := st.delivered }
  | .ready cur =>
    { processed := st.processed,
      tasks := fun j => if j = i then .done else st.tasks j,
      delivered := st.delivered ++ [cur] }
  | .done => st

/-- Run a schedule (a list of task ids, each occurrence advancing that
task by one step) from the initial state where every task is idle. -/
def runProg (sched : List Nat) : ProgSt :=
  sched.foldl progStep ⟨0, fun _ => .idle, []⟩

/-! ## Helper lemmas -/

theorem char_toNat_ofNat {n : Nat} (h : n.isValidChar) :
    (Char.ofNat n).toNat = n := by
  unfold Char.ofNat
  rw [dif_pos h]
  rfl

/-- ASCII-lowercasing never produces an uppercase letter. -/
theorem lowerChar_not_upper (c : Char) : isUpperAscii (lowerChar c) = false := by
  unfold lowerChar isUpperAscii
  by_cases h : 65 ≤ c.toNat ∧ c.toNat ≤ 90
  · rw [if_pos h]
    have hv : (c.toNat + 32).isValidChar := Or.inl (by omega)
    rw [decide_eq_false_iff_not, char_toNat_ofNat hv]
    omega
  · rw [if_neg h, decide_eq_false_iff_not]
    exact h

/-- No character of a lowercased string is an uppercase ASCII letter. -/
theorem goToLower_no_upper (s : String) :
    (goToLower s).data.any isUpperAscii = false := by
  show (s.data.map lowerChar).any isUpperAscii = false
  rw [List.any_map]
  rw [List.any_eq_false]
  intro c _
  exact fun hc => by
    have := lowerChar_not_upper c
    rw [Function.comp_apply] at hc
    rw [hc] at this
    cases this

/-- A filter entry containing an uppercase ASCII letter can never equal a
lowercased extension. -/
theorem goToLower_ne_upper_entry {e : String}
    (he : e.data.any isUpperAscii = true) (s : String) : goToLower s ≠ e := by
  intro hEq
  have h := goToLower_no_upper s
  rw [hEq, he] at h
  cases h

/-- The spec's selection condition is the negation of the source's skip
condition. -/
theorem filter_guard (c : Config) (x : String) :
    (c.Extensions.isEmpty || c.Extensions.contains x) =
      !(c.HasExtensionFilter && !c.IsExtensionAllowed x) := by
  unfold Config.HasExtensionFilter Config.IsExtensionAllowed
  cases hE : c.Extensions with
  | nil => simp [hE]
  | cons a l => simp [hE, Config.HasExtensionFilter]

theorem getFilesLoop_eq_specSelect (c : Config) :
    ∀ entries, getFilesLoop c entries = specSelect c entries := by
  intro entries
  induction entries with
  | nil => rfl
  | cons e rest ih =>
    have hg := filter_guard c (goToLower (extOf e.name))
    cases hd : e.isDir with
    | true =>
      simp only [getFilesLoop, specSelect, List.filter_cons, hd, Bool.not_true,
        Bool.false_and, Bool.false_eq_true, if_false, if_true]
      simpa only [specSelect] using ih
    | false =>
      by_cases hguard :
          (c.HasExtensionFilter && !c.IsExtensionAllowed (goToLower (extOf e.name))) = true
      · simp only [getFilesLoop, specSelect, List.filter_cons, hd, Bool.not_false,
          Bool.true_and, Bool.false_eq_true, if_false, hg, hguard, Bool.not_true,
          if_true]
        simpa only [specSelect] using ih
      · rw [Bool.not_eq_true] at hguard
        simp only [getFilesLoop, specSelect, List.filter_cons, hd, Bool.not_false,
          Bool.true_and, Bool.false_eq_true, if_false, hg, hguard, Bool.not_false,
          if_true, List.map_cons]
        exact congrArg _ (by simpa only [specSelect] using ih)

/-- A never-existing source fails the locked-file probe, so `CopyFile`
fails with the locked error and leaves the filesystem untouched
(provided the trivial-skip branch does not fire). -/
theorem copyFile_locked (c : Config) (src : String) (fs : FS)
    (hsrc : fs.fileExists src = false)
    (hskip : (fs.fileExists (joinPath c.Destination (baseName src)) && !c.Overwrite) = false) :
    CopyFile c false src c.Overwrite fs = (some .locked, fs) := by
  unfold CopyFile
  simp only [Bool.false_eq_true, if_false, hskip, IsFileLocked, hsrc,
    Bool.not_false, Bool.true_or, if_true]

theorem range_map_backoff (a l : Nat) :
    (List.range (l + 1)).map (fun k => (a + 1 + k) * 100) =
      (a + 1) * 100 :: (List.range l).map (fun k => (a + 2 + k) * 100) := by
  rw [List.range_succ_eq_map, List.map_cons, List.map_map]
  congr 1
  exact List.map_congr_left fun x _ => by simp only [Function.comp_apply]; omega

/-- When the source never exists, every iteration of the retry loop fails
with the locked error: all `left + 1` remaining attempts are consumed, the
failed result carries the last attempt's (locked) error, the loop sleeps
`(attempt + 1) * 100ms` after every attempt except the last, and the
filesystem is unchanged. -/
theorem retryLoop_locked (c : Config) (src : String) (fs : FS)
    (hsrc : fs.fileExists src = false)
    (hskip : (fs.fileExists (joinPath c.Destination (baseName src)) && !c.Overwrite) = false) :
    ∀ left attempt e0,
      retryLoop c false src (baseName src) (left + 1) attempt fs e0 =
        ⟨⟨baseName src, false, false, some .locked⟩, left + 1,
          (List.range left).map (fun k => (attempt + 1 + k) * 100), fs⟩ := by
  intro left
  induction left with
  | zero =>
    intro attempt e0
    unfold retryLoop
    rw [copyFile_locked c src fs hsrc hskip]
    simp
  | succ l ih =>
    intro attempt e0
    unfold retryLoop
    rw [copyFile_locked c src fs hsrc hskip]
    simp only [Bool.false_eq_true, if_false]
    rw [ih (attempt + 1) (some .locked), range_map_backoff]

/-- If the single-file copy succeeds from the current state, the retry
loop returns the successful result after exactly one attempt, with no
sleeps and no further attempts. -/
theorem retryLoop_success (c : Config) (src fileName : String) (fs : FS)
    (h : (CopyFile c false src c.Overwrite fs).1 = none) :
    ∀ left attempt e0,
      retryLoop c false src fileName (left + 1) attempt fs e0 =
        ⟨⟨fileName, true, false, none⟩, 1, [],
          (CopyFile c false src c.Overwrite fs).2⟩ := by
  intro left attempt e0
  unfold retryLoop
  cases hcf : CopyFile c false src c.Overwrite fs with
  | mk e1 fs1 =>
    rw [hcf] at h
    cases e1 with
    | none => simp
    | some e => cases h

/-- With a live context the retry loop performs at least one attempt. -/
theorem retryLoop_attempts_pos (c : Config) (src fileName : String)
    (left attempt : Nat) (fs : FS) (e0 : Option CopyErr) :
    1 ≤ (retryLoop c false src fileName (left + 1) attempt fs e0).attempts := by
  unfold retryLoop
  simp only [Bool.false_eq_true, if_false]
  cases CopyFile c false src c.Overwrite fs with
  | mk e1 fs1 =>
    cases e1 with
    | none => simp
    | some e =>
      cases left with
      | zero => simp
      | succ l => simp

/-- In every run of the retry loop (live context), the recorded sleeps
are exactly `(attempt + 1) * 100ms` after each attempt except the last:
one sleep fewer than attempts, with linearly growing durations. -/
theorem retryLoop_sleeps (c : Config) (src fileName : String) :
    ∀ left attempt fs e0,
      (retryLoop c false src fileName left attempt fs e0).sleeps =
        (List.range ((retryLoop c false src fileName left attempt fs e0).attempts - 1)).map
          (fun k => (attempt + 1 + k) * 100) := by
  intro left
  induction left with
  | zero => intro attempt fs e0; rfl
  | succ l ih =>
    intro attempt fs e0
    unfold retryLoop
    simp only [Bool.false_eq_true, if_false]
    cases hcf : CopyFile c false src c.Overwrite fs with
    | mk e1 fs1 =>
      cases e1 with
      | none => simp
      | some e =>
        cases l with
        | zero => simp
        | succ l2 =>
          simp only [Bool.false_eq_true, if_false]
          have hpos := retryLoop_attempts_pos c src fileName l2 (attempt + 1) fs1 (some e)
          obtain ⟨m, hm⟩ :
              ∃ m, (retryLoop c false src fileName (l2 + 1) (attempt + 1) fs1 (some e)).attempts
                = m + 1 :=
            ⟨_, (Nat.succ_pred_eq_of_pos hpos).symm⟩
          rw [ih (attempt + 1) fs1 (some e), hm]
          simp only [Nat.add_sub_cancel]
          rw [range_map_backoff]

/-- The successful outcome of a `CopyResult`. -/
def isSuccessOutcome (r : CopyResult) : Prop :=
  r.Success = true ∧ r.Skipped = false ∧ r.Error = none

/-- The skipped outcome of a `CopyResult`. -/
def isSkippedOutcome (r : CopyResult) : Prop :=
  r.Success = false ∧ r.Skipped = true ∧ r.Error = none

/-- The failed outcome of a `CopyResult`: both flags false and an error
present. -/
def isFailedOutcome (r : CopyResult) : Prop :=
  r.Success = false ∧ r.Skipped = false ∧ ∃ e, r.Error = some e

/-- Every result produced by the retry loop is either a success or a
failure carrying an error. -/
theorem retryLoop_threeWay (c : Config) (ctx : Bool) (src fileName : String) :
    ∀ left attempt fs e0,
      isSuccessOutcome (retryLoop c ctx src fileName (left + 1) attempt fs e0).result ∨
        isFailedOutcome (retryLoop c ctx src fileName (left + 1) attempt fs e0).result := by
  cases hctx : ctx with
  | true =>
    intro left attempt fs e0
    unfold retryLoop
    right
    exact ⟨rfl, rfl, _, rfl⟩
  | false =>
    intro left
    induction left with
    | zero =>
      intro attempt fs e0
      unfold retryLoop
      simp only [Bool.false_eq_true, if_false]
      cases CopyFile c false src c.Overwrite fs with
      | mk e1 fs1 =>
        cases e1 with
        | none => left; exact ⟨rfl, rfl, rfl⟩
        | some e => right; exact ⟨rfl, rfl, _, rfl⟩
    | succ l ih =>
      intro attempt fs e0
      unfold retryLoop
      simp only [Bool.false_eq_true, if_false]
      cases CopyFile c false src c.Overwrite fs with
      | mk e1 fs1 =>
        cases e1 with
        | none => left; exact ⟨rfl, rfl, rfl⟩
        | some e => exact ih (attempt + 1) fs1 (some e)

/-- The number of files a blocking-mode batch has counted so far. -/
def sumCLI (st : SchedState) : Nat :=
  st.successful + st.failed + st.skipped

/-- Every completed blocking-mode task increments exactly one of the
three counters. -/
theorem runTaskCLI_sum (c : Config) (st : SchedState) (f : String) :
    sumCLI (runTaskCLI c st f) = sumCLI st + 1 := by
  unfold runTaskCLI sumCLI
  split
  · dsimp
    omega
  · dsimp only
    split
    · dsimp
      omega
    · split
      · dsimp
        omega
      · dsimp
        omega

theorem foldl_runTaskCLI_sum (c : Config) :
    ∀ (files : List String) (st : SchedState),
      sumCLI (files.foldl (runTaskCLI c) st) = sumCLI st + files.length := by
  intro files
  induction files with
  | nil => intro st; rfl
  | cons f rest ih =>
    intro st
    rw [List.foldl_cons, ih, runTaskCLI_sum, List.length_cons]
    omega

/-- The number of files an event-mode batch has counted so far. -/
def sumEv (st : EvState) : Nat :=
  st.successful + st.failed + st.skipped

/-- With a live context every event-mode task is admitted and increments
exactly one of the three counters. -/
theorem runTaskEvents_sum (c : Config) (adm : Bool) (total : Nat)
    (st : EvState) (f : String) :
    sumEv (runTaskEvents c false adm total st f) = sumEv st + 1 := by
  unfold runTaskEvents emitEv sumEv
  simp only [Bool.false_and, Bool.false_eq_true, if_false]
  split
  · dsimp
    omega
  · split
    · dsimp
      omega
    · split
      · dsimp
        omega
      · dsimp
        omega

theorem runEvents_sum (c : Config) (adm : Nat → Bool) (total : Nat) :
    ∀ (files : List String) (i : Nat) (st : EvState),
      sumEv (runEvents c false adm total files i st) = sumEv st + files.length := by
  intro files
  induction files with
  | nil => intro i st; rfl
  | cons f rest ih =>
    intro i st
    unfold runEvents
    rw [ih, runTaskEvents_sum, List.length_cons]
    omega

/-- In dry-run mode a blocking-mode task only counts a success. -/
theorem runTaskCLI_dry (c : Config) (hD : c.DryRun = true)
    (st : SchedState) (f : String) :
    runTaskCLI c st f = { st with successful := st.successful + 1 } := by
  unfold runTaskCLI
  rw [if_pos hD]

theorem foldl_runTaskCLI_dry (c : Config) (hD : c.DryRun = true) :
    ∀ (files : List String) (st : SchedState),
      files.foldl (runTaskCLI c) st =
        { st with successful := st.successful + files.length } := by
  intro files
  induction files with
  | nil => intro st; rfl
  | cons f rest ih =>
    intro st
    rw [List.foldl_cons, runTaskCLI_dry c hD, ih, List.length_cons]
    congr 1
    dsimp
    omega

/-- In dry-run mode an event-mode batch (live context) counts every file
successful, counts nothing else, and never touches the filesystem. -/
theorem runEvents_dry (c : Config) (hD : c.DryRun = true)
    (adm : Nat → Bool) (total : Nat) :
    ∀ (files : List String) (i : Nat) (st : EvState),
      (runEvents c false adm total files i st).successful = st.successful + files.length ∧
        (runEvents c false adm total files i st).failed = st.failed ∧
        (runEvents c false adm total files i st).skipped = st.skipped ∧
        (runEvents c false adm total files i st).failedFiles = st.failedFiles ∧
        (runEvents c false adm total files i st).fs = st.fs := by
  intro files
  induction files with
  | nil => intro i st; exact ⟨rfl, rfl, rfl, rfl, rfl⟩
  | cons f rest ih =>
    intro i st
    unfold runEvents
    have hstep : runTaskEvents c false (adm i) total st f =
        emitEv total (baseName f) "success"
          { st with successful := st.successful + 1 } := by
      unfold runTaskEvents
      simp only [Bool.false_and, Bool.false_eq_true, if_false]
      rw [if_pos hD]
    rw [hstep]
    obtain ⟨h1, h2, h3, h4, h5⟩ :=
      ih (i + 1) (emitEv total (baseName f) "success"
        { st with successful := st.successful + 1 })
    rw [h1, h2, h3, h4, h5]
    unfold emitEv
    exact ⟨by dsimp; omega, rfl, rfl, rfl, rfl⟩

/-- `emitEv` preserves the progress-counter invariant: the delivered
`current` values are `1, 2, …, processed` in order. -/
theorem emitEv_currents (total : Nat) (fn stt : String) (st1 : EvState)
    (p : Nat) (ev : List ProgressEvent)
    (hp : st1.processed = p) (hev : st1.events = ev)
    (h : ev.map ProgressEvent.current = (List.range p).map (· + 1)) :
    (emitEv total fn stt st1).events.map ProgressEvent.current =
      (List.range (emitEv total fn stt st1).processed).map (· + 1) := by
  unfold emitEv
  dsimp
  rw [hp, hev, List.map_append, h, List.range_succ, List.map_append]
  simp

/-- The event-mode scheduler (live context, serialized observation)
preserves the progress-counter invariant. -/
theorem runEvents_currents (c : Config) (adm : Nat → Bool) (total : Nat) :
    ∀ (files : List String) (i : Nat) (st : EvState),
      st.events.map ProgressEvent.current = (List.range st.processed).map (· + 1) →
      (runEvents c false adm total files i st).events.map ProgressEvent.current =
        (List.range (runEvents c false adm total files i st).processed).map (· + 1) := by
  intro files
  induction files with
  | nil => intro i st h; exact h
  | cons f rest ih =>
    intro i st h
    unfold runEvents
    apply ih
    unfold runTaskEvents
    simp only [Bool.false_and, Bool.false_eq_true, if_false]
    split
    · exact emitEv_currents _ _ _ _ _ _ rfl rfl h
    · split
      · exact emitEv_currents _ _ _ _ _ _ rfl rfl h
      · split
        · exact emitEv_currents _ _ _ _ _ _ rfl rfl h
        · exact emitEv_currents _ _ _ _ _ _ rfl rfl h

theorem pairwise_le_range_map (n : Nat) :
    ((List.range n).map (· + 1)).Pairwise (· ≤ ·) := by
  refine List.Pairwise.map _ (fun a b hab => ?_) (List.pairwise_lt_range n)
  omega

/-! ## Lemma: no file selected by an all-uppercase-rejecting filter -/

/-- When the single filter entry contains an uppercase ASCII letter, the
`GetFiles` loop keeps nothing: every file's extension is lowercased
before the exact-equality comparison. -/
theorem getFilesLoop_upper_entry (e : String) (he : e.data.any isUpperAscii = true)
    (c : Config) (hc : c.Extensions = [e]) :
    ∀ entries, getFilesLoop c entries = [] := by
  intro entries
  induction entries with
  | nil => rfl
  | cons x rest ih =>
    unfold getFilesLoop
    split
    · exact ih
    · have hne : goToLower (extOf x.name) ≠ e := goToLower_ne_upper_entry he _
      have hfilter : c.HasExtensionFilter = true := by
        unfold Config.HasExtensionFilter
        rw [hc]
        rfl
      have hallowed : c.IsExtensionAllowed (goToLower (extOf x.name)) = false := by
        unfold Config.IsExtensionAllowed
        rw [hfilter]
        simp [hc, hne]
      simp only [hfilter, hallowed, Bool.not_false, Bool.true_and, if_true]
      exact ih

/-! ## Concrete fixtures for witnesses and evaluations -/

/-- Fixture (C2): overwrite disabled, destination `d/a.txt` present. -/
def cfgSkip : Config := ⟨"src", "d", 2, false, [], 1, false⟩

/-- Fixture (C2): filesystem with the destination file already there. -/
def fsSkip : FS := ⟨[("d/a.txt", "old")], [], false, [], [], []⟩

/-- Fixture (C3): two retries, overwrite enabled. -/
def cfgRetry : Config := ⟨"src", "d", 1, true, [], 2, false⟩

/-- Fixture (C3, C5): empty filesystem — the source never exists. -/
def fsEmptyW : FS := ⟨[], [], false, [], [], []⟩

/-- Fixture (C3): filesystem where the source file exists and no I/O
oracle fails. -/
def fsSrcW : FS := ⟨[("src/a.txt", "hello")], [], false, [], [], []⟩

/-- Fixture (C5): dry-run enabled. -/
def cfgDry : Config := ⟨"src", "d", 2, true, [], 1, true⟩

/-- Fixture (C7): overwrite disabled, one worker slot is available. -/
def cfgCancel : Config := ⟨"src", "d", 2, false, [], 1, false⟩

/-- Fixture (C7): the destination file already exists. -/
def fsCancel : FS := ⟨[("d/a.txt", "old")], [], false, [], [], []⟩

/-- Fixture (C8): lowercase filter `[".jpg", ".png"]`. -/
def cfgExt : Config := ⟨"src", "d", 1, true, [".jpg", ".png"], 0, false⟩

/-- Fixture (C8): the spec's mixed-case listing plus a directory. -/
def entriesExt : List DirEntry :=
  [⟨"a.JPG", false⟩, ⟨"b.jpg", false⟩, ⟨"c.PNG", false⟩, ⟨"d.pdf", false⟩,
    ⟨"sub.jpg", true⟩]

/-- Fixture (C10): a non-lowercase filter entry. -/
def cfgUpper : Config := ⟨"src", "d", 1, true, [".JPG"], 0, false⟩

/-- Fixture (C10): files that would match a case-insensitive `.jpg`
filter. -/
def entriesUpper : List DirEntry := [⟨"photo.JPG", false⟩, ⟨"photo.jpg", false⟩]

/-! ## The claims -/

/-- **C1** — for every batch run to completion without cancellation (the
blocking scheduler, and the event scheduler with a never-cancelled
context), the returned summary satisfies
`successful + failed + skipped = totalFiles`, and `totalFiles` is the
length of the input file list. -/
theorem copy_batch_counters_sum_to_total (c : Config) (files : List String)
    (fs : FS) (adm : Nat → Bool) :
    ((CopyFilesParallel c files fs).1.Successful +
          (CopyFilesParallel c files fs).1.Failed +
          (CopyFilesParallel c files fs).1.Skipped =
        (CopyFilesParallel c files fs).1.TotalFiles ∧
      (CopyFilesParallel c files fs).1.TotalFiles = files.length) ∧
    ((CopyFilesParallelWithEvents c false adm files fs).1.Successful +
          (CopyFilesParallelWithEvents c false adm files fs).1.Failed +
          (CopyFilesParallelWithEvents c false adm files fs).1.Skipped =
        (CopyFilesParallelWithEvents c false adm files fs).1.TotalFiles ∧
      (CopyFilesParallelWithEvents c false adm files fs).1.TotalFiles = files.length) := by
  refine ⟨⟨?_, rfl⟩, ⟨?_, rfl⟩⟩
  · have h := foldl_runTaskCLI_sum c files ⟨0, 0, 0, [], fs⟩
    unfold sumCLI at h
    unfold CopyFilesParallel
    dsimp only
    dsimp only at h
    omega
  · have h := runEvents_sum c adm files.length files 0 ⟨0, 0, 0, 0, [], [], fs⟩
    unfold sumEv at h
    unfold CopyFilesParallelWithEvents
    dsimp only
    dsimp only at h
    omega

/-- **C2** — when the destination path (destination directory joined with
the source's base name) already exists and overwrite is disabled,
`CopyFileWithRetry` returns a skipped result immediately: no copy
attempt, no sleep, no retry consumed, and the filesystem (hence the
destination's content) is untouched. -/
theorem skip_before_any_attempt (c : Config) (ctx : Bool) (src : String) (fs : FS)
    (hexists : fs.fileExists (joinPath c.Destination (baseName src)) = true)
    (hov : c.Overwrite = false) :
    CopyFileWithRetry c ctx src fs =
      ⟨⟨baseName src, false, true, none⟩, 0, [], fs⟩ := by
  unfold CopyFileWithRetry
  dsimp only
  rw [hexists, hov]
  rfl

/-- Witness for **C2** at a concrete input. -/
theorem skip_before_any_attempt_witness :
    fsSkip.fileExists (joinPath cfgSkip.Destination (baseName "src/a.txt")) = true ∧
      cfgSkip.Overwrite = false ∧
      CopyFileWithRetry cfgSkip false "src/a.txt" fsSkip =
        ⟨⟨"a.txt", false, true, none⟩, 0, [], fsSkip⟩ :=
  ⟨rfl, rfl, skip_before_any_attempt cfgSkip false "src/a.txt" fsSkip rfl rfl⟩

/-- **C3** — for a non-skipped file, if every attempt fails (here: a
source path that never exists, which the locked-file probe reports as
locked), `CopyFileWithRetry` performs exactly `MaxRetries + 1` copy
attempts and returns a failed result carrying the error observed on the
last attempt; and whenever an attempt of the retry loop succeeds, the
loop returns the successful result immediately, performing exactly one
more attempt and none of the remaining ones. -/
theorem retry_exhaustion_and_immediate_success (c : Config) (src : String) (fs : FS)
    (hsrc : fs.fileExists src = false)
    (hskip : (fs.fileExists (joinPath c.Destination (baseName src)) && !c.Overwrite) = false) :
    ((CopyFileWithRetry c false src fs).attempts = c.MaxRetries + 1 ∧
      (CopyFileWithRetry c false src fs).result =
        ⟨baseName src, false, false, some .locked⟩) ∧
    (∀ (fs' : FS) (left attempt : Nat) (e0 : Option CopyErr),
      (CopyFile c false src c.Overwrite fs').1 = none →
      retryLoop c false src (baseName src) (left + 1) attempt fs' e0 =
        ⟨⟨baseName src, true, false, none⟩, 1, [],
          (CopyFile c false src c.Overwrite fs').2⟩) := by
  constructor
  · have h := retryLoop_locked c src fs hsrc hskip c.MaxRetries 0 none
    unfold CopyFileWithRetry
    dsimp only
    rw [hskip]
    simp only [Bool.false_eq_true, if_false]
    rw [h]
    exact ⟨rfl, rfl⟩
  · intro fs' left attempt e0 hcf
    exact retryLoop_success c src (baseName src) fs' hcf left attempt e0

/-- Witness for **C3**: with `MaxRetries = 2` and a never-existing
source, three attempts and a locked failure; with an existing source, the
loop succeeds on its single attempt. -/
theorem retry_exhaustion_and_immediate_success_witness :
    fsEmptyW.fileExists "src/a.txt" = false ∧
      (CopyFileWithRetry cfgRetry false "src/a.txt" fsEmptyW).attempts = 3 ∧
      (CopyFileWithRetry cfgRetry false "src/a.txt" fsEmptyW).result =
        ⟨"a.txt", false, false, some .locked⟩ ∧
      retryLoop cfgRetry false "src/a.txt" "a.txt" 1 0 fsSrcW none =
        ⟨⟨"a.txt", true, false, none⟩, 1, [],
          (CopyFile cfgRetry false "src/a.txt" cfgRetry.Overwrite fsSrcW).2⟩ := by
  have h := retry_exhaustion_and_immediate_success cfgRetry "src/a.txt" fsEmptyW rfl rfl
  exact ⟨rfl, h.1.1, h.1.2, h.2 fsSrcW 0 0 none rfl⟩

/-- **C4** — the backoff is linear, not exponential, and never follows
the last attempt: in every run of `CopyFileWithRetry` the recorded sleeps
are exactly `(k + 1) * 100ms` for `k = 0, 1, …`, one per attempt except
the last (`attempts - 1` sleeps in total: 100ms after attempt 0, 200ms
after attempt 1, …). -/
theorem linear_backoff_between_attempts (c : Config) (ctx : Bool) (src : String)
    (fs : FS) :
    (CopyFileWithRetry c ctx src fs).sleeps =
      (List.range ((CopyFileWithRetry c ctx src fs).attempts - 1)).map
        (fun k => (k + 1) * 100) := by
  unfold CopyFileWithRetry
  dsimp only
  split
  · rfl
  · cases hctx : ctx with
    | false =>
      rw [retryLoop_sleeps c src (baseName src) (c.MaxRetries + 1) 0 fs none]
      exact List.map_congr_left fun x _ => by omega
    | true =>
      unfold retryLoop
      simp

/-- **C5** — in dry-run mode neither scheduler performs any filesystem
I/O and every file is unconditionally counted successful: the summary is
`⟨N, N, 0, 0, []⟩` for a file list of length `N` and the filesystem is
returned unchanged (no destination file is created). -/
theorem dry_run_counts_all_successful_no_io (c : Config) (files : List String)
    (fs : FS) (adm : Nat → Bool) (hD : c.DryRun = true) :
    (CopyFilesParallel c files fs).1 = ⟨files.length, files.length, 0, 0, []⟩ ∧
      (CopyFilesParallel c files fs).2 = fs ∧
      (CopyFilesParallelWithEvents c false adm files fs).1 =
        ⟨files.length, files.length, 0, 0, []⟩ ∧
      (CopyFilesParallelWithEvents c false adm files fs).2.1 = fs := by
  have hCLI := foldl_runTaskCLI_dry c hD files ⟨0, 0, 0, [], fs⟩
  obtain ⟨h1, h2, h3, h4, h5⟩ :=
    runEvents_dry c hD adm files.length files 0 ⟨0, 0, 0, 0, [], [], fs⟩
  refine ⟨?_, ?_, ?_, ?_⟩
  · unfold CopyFilesParallel
    dsimp only
    rw [hCLI]
    dsimp only
    rw [Nat.zero_add]
  · unfold CopyFilesParallel
    dsimp only
    rw [hCLI]
  · unfold CopyFilesParallelWithEvents
    dsimp only
    rw [h1, h2, h3, h4]
    dsimp only
    rw [Nat.zero_add]
  · unfold CopyFilesParallelWithEvents
    dsimp only
    rw [h5]

/-- Witness for **C5** at a concrete two-file input. -/
theorem dry_run_counts_all_successful_no_io_witness :
    cfgDry.DryRun = true ∧
      (CopyFilesParallel cfgDry ["src/a.txt", "src/b.txt"] fsEmptyW).1 =
        ⟨2, 2, 0, 0, []⟩ ∧
      (CopyFilesParallelWithEvents cfgDry false (fun _ => true)
          ["src/a.txt", "src/b.txt"] fsEmptyW).2.1 = fsEmptyW := by
  have h := dry_run_counts_all_successful_no_io cfgDry ["src/a.txt", "src/b.txt"]
    fsEmptyW (fun _ => true) rfl
  exact ⟨rfl, h.1, h.2.2.2⟩

/-- **C6** — every `CopyResult` returned by `CopyFileWithRetry` realises
exactly one of the three outcomes: success (`Success` with no error,
not skipped), skipped (`Skipped` with no error, not successful), or
failed (both flags false and an error present); never two at once. -/
theorem copy_result_three_way_outcome (c : Config) (ctx : Bool) (src : String)
    (fs : FS) :
    (isSuccessOutcome (CopyFileWithRetry c ctx src fs).result ∨
        isSkippedOutcome (CopyFileWithRetry c ctx src fs).result ∨
        isFailedOutcome (CopyFileWithRetry c ctx src fs).result) ∧
      ¬(isSuccessOutcome (CopyFileWithRetry c ctx src fs).result ∧
          isSkippedOutcome (CopyFileWithRetry c ctx src fs).result) ∧
      ¬(isSuccessOutcome (CopyFileWithRetry c ctx src fs).result ∧
          isFailedOutcome (CopyFileWithRetry c ctx src fs).result) ∧
      ¬(isSkippedOutcome (CopyFileWithRetry c ctx src fs).result ∧
          isFailedOutcome (CopyFileWithRetry c ctx src fs).result) := by
  refine ⟨?_, ?_, ?_, ?_⟩
  · unfold CopyFileWithRetry
    dsimp only
    split
    · right; left; exact ⟨rfl, rfl, rfl⟩
    · rcases retryLoop_threeWay c ctx src (baseName src) c.MaxRetries 0 fs none with h | h
      · left; exact h
      · right; right; exact h
  · intro h
    cases h.1.1.symm.trans h.2.1
  · intro h
    cases h.1.1.symm.trans h.2.1
  · intro h
    cases h.1.2.1.symm.trans h.2.2.1

/-- **C7** (evaluation of the code at the failing input) — the claim
says that once the cancellation signal is triggered, the per-iteration
check at the top of the dispatch loop prevents any further task from
being started.  In the source that check is
`select { case <-ctx.Done(): break; default: }`, and Go's `break`
terminates the `select`, not the `for` loop, so the check admits every
file anyway.  Evaluating the model with an already-cancelled context, a
one-file list and an existing destination: the task is started, calls
`CopyFileWithRetry`, is counted (skipped = 1 instead of the 0 the claim
implies), and even delivers a progress callback. -/
theorem cancelled_context_still_admits_task :
    (CopyFilesParallelWithEvents cfgCancel true (fun _ => true)
        ["src/a.txt"] fsCancel).1 = ⟨1, 0, 0, 1, []⟩ ∧
      (CopyFilesParallelWithEvents cfgCancel true (fun _ => true)
          ["src/a.txt"] fsCancel).2.2 = [⟨1, 1, "a.txt", "skipped"⟩] :=
  ⟨rfl, rfl⟩

/-- **C8** — `GetFiles` returns exactly the spec's selection: a regular
file is kept iff the filter is empty or the lowercase form of its
extension is in the filter, and directories are never kept; on the
spec's mixed-case listing `[a.JPG, b.jpg, c.PNG, d.pdf]` with filter
`[.jpg, .png]`, exactly the three case-insensitive matches are selected
(the `.pdf` file and a directory are excluded). -/
theorem extension_filter_selection :
    (∀ (c : Config) (entries : List DirEntry),
        GetFiles c true entries = .ok (specSelect c entries)) ∧
      GetFiles cfgExt true entriesExt =
        .ok ["src/a.JPG", "src/b.jpg", "src/c.PNG"] := by
  constructor
  · intro c entries
    unfold GetFiles
    rw [getFilesLoop_eq_specSelect]
    rfl
  · rfl

/-- **C9** (counterexample) — the claim that the `current` values
delivered to the progress callback are monotonically non-decreasing in
observation order is false: with two concurrent tasks, the schedule in
which task 0 increments the counter, task 1 increments and delivers, and
then task 0 delivers, produces the observation sequence `[2, 1]`. -/
theorem progress_delivery_not_monotone_cex :
    (runProg [0, 1, 1, 0]).delivered = [2, 1] ∧
      ¬ (runProg [0, 1, 1, 0]).delivered.Pairwise (· ≤ ·) :=
  ⟨rfl, by decide⟩

/-- **C9** (amended) — the delivered `current` values within one batch
are exactly `1, 2, …, processed` — in particular pairwise non-decreasing
in observation order — *provided* each callback invocation is not
interleaved with other tasks' increment/callback sections (the
serialized observation modelled by the scheduler; enforced e.g. by
`Workers = 1`, where the admission semaphore serializes whole task
bodies).  Under free interleaving only per-task program order is
guaranteed and deliveries may invert, as the counterexample shows. -/
theorem progress_delivery_monotone_serialized (c : Config) (adm : Nat → Bool)
    (files : List String) (fs : FS) :
    ((CopyFilesParallelWithEvents c false adm files fs).2.2.map
        ProgressEvent.current).Pairwise (· ≤ ·) := by
  have h := runEvents_currents c adm files.length files 0 ⟨0, 0, 0, 0, [], [], fs⟩ rfl
  unfold CopyFilesParallelWithEvents
  dsimp only
  rw [h]
  exact pairwise_le_range_map _

/-- **C10** — a filter entry containing an uppercase ASCII letter (for
example `".JPG"`) matches no file at all: `GetFiles` lowercases each
file's extension and `IsExtensionAllowed` compares for exact equality
without normalising the entries, so the advertised case-insensitive
matching only holds when every filter entry is lowercase. -/
theorem uppercase_filter_entry_matches_nothing (e : String)
    (he : e.data.any isUpperAscii = true) :
    (∀ name : String, goToLower (extOf name) ≠ e) ∧
      (∀ (c : Config) (entries : List DirEntry), c.Extensions = [e] →
        GetFiles c true entries = .ok []) := by
  constructor
  · intro name
    exact goToLower_ne_upper_entry he _
  · intro c entries hc
    unfold GetFiles
    rw [getFilesLoop_upper_entry e he c hc entries]
    rfl

/-- Witness for **C10**: with filter `[".JPG"]` not even `photo.JPG`
(whose lowercased extension is `".jpg"`) is selected. -/
theorem uppercase_filter_entry_matches_nothing_witness :
    (".JPG" : String).data.any isUpperAscii = true ∧
      goToLower (extOf "photo.JPG") ≠ ".JPG" ∧
      GetFiles cfgUpper true entriesUpper = .ok [] := by
  have h := uppercase_filter_entry_matches_nothing ".JPG" (by decide)
  exact ⟨by decide, h.1 "photo.JPG", h.2 cfgUpper entriesUpper rfl⟩

end CopyImage
